import Mathlib

/-!
Shallow embedding of `bioconda_utils/build.py` (the dependency-graph build
scheduler): the `build` function (lines 14-130) and the `test_recipes`
function (lines 133-315).

Modelling conventions:
* Python exceptions are modelled with `Except PyError`.  A reference to
  a name that was never bound in the function and is not a module-level
  binding is a Python `NameError` at the point of evaluation; `build.py`
  evaluates `len(failed)` at line 270 although `failed` is never assigned
  anywhere, and evaluates `sys.stderr` at line 303 although `sys` is never
  imported, so these statements raise `NameError` when reached.
* External collaborators (conda-build, the docker builder, `pkg_test`,
  `anaconda upload`, the filesystem) are modelled by explicit inputs
  describing the outcome of each collaborator call, mirroring the
  result shapes the code inspects (raised / returncode / path exists).
* The networkx calls are modelled by executable Lean functions computing
  the same mathematical objects: `nx.connected_components` by a
  union-find style merge over the edge list, `nx.topological_sort` by
  Kahn-style repeated removal of a node with no incoming edge (returning
  `none` where networkx raises `NetworkXUnfeasible` on a cyclic
  subgraph), and Python `sorted` by `List.mergeSort` with the
  corresponding lexicographic comparator.
* Package names, recipe paths and built-package paths are `String`s.
-/

namespace BiocondaBuild

/-- Python exceptions that can escape the modelled code. -/
inductive PyError where
  /-- Python `NameError`: the given identifier is not bound. -/
  | nameError (missing : String)
  /-- networkx `NetworkXUnfeasible`, raised by `nx.topological_sort`
  when the (sub)graph contains a cycle. -/
  | networkxUnfeasible
  deriving DecidableEq, Repr

/-- Outcome of the external collaborator calls made while building one
target (one recipe in one environment), as inspected by `build`
(build.py lines 74-130). -/
structure TargetWorld where
  /-- `docker_builder.build_recipe` raises `DockerCalledProcessError`
  (caught at line 104). -/
  dockerBuildRaises : Bool
  /-- the `conda build` subprocess exits nonzero, so `sp.run(check=True)`
  raises `CalledProcessError` (caught at line 104). -/
  condaBuildRaises : Bool
  /-- `os.path.exists(utils.built_package_path(recipe, env))` at line 84. -/
  builtPkgExists : Bool
  /-- `pkg_test.test_package(pkg_path).returncode` at line 119. -/
  mulledTestReturncode : Nat
  deriving DecidableEq, Repr

/-- Observable outcome of one `build` call: the returned boolean and
whether the mulled test collaborator was invoked (lines 116-117). -/
structure BuildOutcome where
  result : Bool
  mulledTestRan : Bool
  deriving DecidableEq, Repr

/-- Embedding of `build` (build.py lines 14-130).  `testonly` only
changes the command-line arguments passed to the collaborators (lines
59-62), not the control flow modelled here.  In the docker branch a
caught builder exception or a missing built package returns `False`
before the mulled test; in the non-docker branch a caught
`CalledProcessError` returns `False`; otherwise `build_success = True`
and, when `mulled_test` is set, the result is
`test_success & build_success` (line 130). -/
def build (testonly mulledTest useDocker : Bool) (w : TargetWorld) : BuildOutcome :=
  if useDocker then
    if w.dockerBuildRaises then ⟨false, false⟩              -- lines 104-109
    else if !w.builtPkgExists then ⟨false, false⟩           -- lines 84-86
    else if !mulledTest then ⟨true, false⟩                  -- lines 111-112
    else ⟨decide (w.mulledTestReturncode = 0) && true, true⟩ -- lines 114-130
  else
    if w.condaBuildRaises then ⟨false, false⟩               -- lines 104-109
    else if !mulledTest then ⟨true, false⟩                  -- lines 111-112
    else ⟨decide (w.mulledTestReturncode = 0) && true, true⟩ -- lines 114-130

/-- Collaborator outcomes for uploading one target, as inspected by the
upload section of `test_recipes` (build.py lines 286-314). -/
structure UploadTarget where
  /-- `os.path.exists(package)` at line 292. -/
  pkgExistsOnDisk : Bool
  /-- the `anaconda upload` subprocess exits nonzero, so
  `sp.run(check=True)` raises `CalledProcessError` (caught at 302). -/
  uploadRaises : Bool
  /-- whether `b"already exists"` occurs in the stdout of the failed
  upload (line 304).  Never consulted by the code as written: the
  `except` handler first evaluates `sys.stderr` at line 303, and `sys`
  is not imported, so `NameError` is raised before the check. -/
  stdoutHasAlreadyExists : Bool
  deriving DecidableEq, Repr

/-- The upload loop over targets (build.py lines 286-314), threading the
`success` flag.  A missing package logs an error and sets
`success = False` (lines 310-314).  A failed upload enters the handler
at line 302, whose first statement
`print(e.stdout.decode(), file=sys.stderr)` raises `NameError` because
the module never imports `sys`; the already-exists test at line 304 is
therefore unreachable. -/
def uploadLoop : List UploadTarget → Bool → Except PyError Bool
  | [], success => .ok success
  | t :: ts, success =>
    if t.pkgExistsOnDisk then
      if t.uploadRaises then .error (.nameError "sys")
      else uploadLoop ts success
    else uploadLoop ts false

/-- Embedding of the upload section of `test_recipes` (build.py lines
282-315) together with the final `return success`.  `onMaster` stands
for `TRAVIS_BRANCH == "master" and TRAVIS_PULL_REQUEST == "false"`
(lines 284-285).  This section is unreachable in `test_recipes` as
written, because line 270 raises `NameError` first; it is embedded
separately so its own behaviour can be analysed. -/
def uploadPhase (testonly onMaster : Bool) (targets : List UploadTarget)
    (success : Bool) : Except PyError Bool :=
  if !testonly && onMaster then uploadLoop targets success
  else .ok success

/-- Lexicographic comparison of character sequences by code point,
as Python compares strings. -/
def chainLe : List Char → List Char → Bool
  | [], _ => true
  | _ :: _, [] => false
  | a :: as, b :: bs =>
    if a.toNat < b.toNat then true
    else if b.toNat < a.toNat then false
    else chainLe as bs

/-- Comparator used for Python `sorted` on strings (code-point
lexicographic order). -/
def strLe (a b : String) : Bool := chainLe a.data b.data

/-- Stable insertion of an element into a sorted list. -/
def insertSorted {α : Type} (le : α → α → Bool) (x : α) : List α → List α
  | [] => [x]
  | y :: ys => if le x y then x :: y :: ys else y :: insertSorted le x ys

/-- Stable sort by the given comparator; Python `sorted` is a stable
sort, which insertion sort models exactly. -/
def isort {α : Type} (le : α → α → Bool) : List α → List α
  | [] => []
  | x :: xs => insertSorted le x (isort le xs)

/-- Python `sorted` on a list of strings. -/
def sortStrings (l : List String) : List String := isort strLe l

/-- Strict lexicographic comparison of character sequences by code
point. -/
def chainLt : List Char → List Char → Bool
  | [], [] => false
  | [], _ :: _ => true
  | _ :: _, [] => false
  | a :: as, b :: bs =>
    if a.toNat < b.toNat then true
    else if b.toNat < a.toNat then false
    else chainLt as bs

/-- Strict code-point lexicographic order on strings. -/
def strLt (a b : String) : Bool := chainLt a.data b.data

/-- Comparator used for Python `sorted` on lists (of strings):
lexicographic comparison of the elements. -/
def listLe : List String → List String → Bool
  | [], _ => true
  | _ :: _, [] => false
  | a :: as, b :: bs =>
    if strLt a b then true
    else if strLt b a then false
    else listLe as bs

/-- Python `sorted` on a list of lists of strings. -/
def sortGroups (L : List (List String)) : List (List String) := isort listLe L

/-- Helper for the union-find style merge: extracts the first group
containing `x`, returning it together with the remaining groups. -/
def extractGroup (x : String) : List (List String) → Option (List String × List (List String))
  | [] => none
  | g :: gs =>
    if g.contains x then some (g, gs)
    else
      match extractGroup x gs with
      | none => none
      | some (h, rest) => some (h, g :: rest)

/-- One merge step of the union-find computation of connected
components: for an edge `(a, b)` of the graph viewed as undirected,
merge the group containing `a` with the group containing `b` (no change
when they already share a group or when an endpoint has no group). -/
def mergeGroups (groups : List (List String)) (a b : String) : List (List String) :=
  match extractGroup a groups with
  | none => groups
  | some (ga, rest) =>
    if ga.contains b then groups
    else
      match extractGroup b rest with
      | none => groups
      | some (gb, rest2) => (ga ++ gb) :: rest2

/-- Model of `nx.connected_components(dag.to_undirected())` (build.py
line 214): weakly connected components of the directed graph, computed
by starting from singleton groups and merging along every edge. -/
def connectedComponents (nodes : List String) (edges : List (String × String)) :
    List (List String) :=
  edges.foldl (fun gs e => mergeGroups gs e.1 e.2) (nodes.map fun n => [n])

/-- The dependency graph returned by `utils.get_dag` (build.py line
196): nodes are package names; an edge `(a, b)` means `b` depends on
`a`. -/
structure Dag where
  nodes : List String
  edges : List (String × String)
  deriving DecidableEq, Repr

/-- Embedding of build.py lines 209-215: in test-only mode every node
is its own subdag, otherwise the subdags are the weakly connected
components; each subdag is sorted and the list of subdags is sorted
(`sorted(map(sorted, ...))`). -/
def computeSubdags (dag : Dag) (testonly : Bool) : List (List String) :=
  if testonly then sortGroups (dag.nodes.map fun n => [n])
  else sortGroups ((connectedComponents dag.nodes dag.edges).map sortStrings)

/-- Python extended slice `l[i::n]` for `i < n`: the elements at
positions `i, i + n, i + 2n, ...`. -/
def sliceStep {α : Type} : List α → Nat → Nat → List α
  | [], _, _ => []
  | x :: xs, 0, n => x :: sliceStep xs (n - 1) n
  | _ :: xs, i + 1, n => sliceStep xs i n

/-- Embedding of build.py lines 217-221: when fewer buckets than
subdags are requested, bucket `i` receives the subdags at positions
congruent to `i` (the list comprehension over `subdags[i::subdags_n]`),
flattened; otherwise each subdag is its own chunk. -/
def computeChunks (subdags : List (List String)) (n : Nat) : List (List String) :=
  if n < subdags.length then
    (List.range n).map (fun i => (sliceStep subdags i n).flatten)
  else subdags

/-- A node is ready for Kahn-style removal when no edge into it comes
from a still-remaining node.  Restricting the source to `remaining`
also realises `dag.subgraph(...)` (build.py line 226): edges from nodes
outside the chunk are ignored. -/
def topoReady (edges : List (String × String)) (remaining : List String)
    (node : String) : Bool :=
  !(edges.any fun e => e.2 == node && remaining.contains e.1)

/-- Kahn-style topological sort: repeatedly emit the first remaining
node with no incoming edge from the remaining nodes.  Returns `none`
(networkx `NetworkXUnfeasible`) when no such node exists. -/
def topoAux (edges : List (String × String)) : Nat → List String → Option (List String)
  | 0, remaining => if remaining.isEmpty then some [] else none
  | fuel + 1, remaining =>
    if remaining.isEmpty then some []
    else
      match remaining.find? (topoReady edges remaining) with
      | none => none
      | some x => (topoAux edges fuel (remaining.erase x)).map (fun order => x :: order)

/-- Model of `nx.topological_sort(dag.subgraph(chunk))` (build.py lines
226-230). -/
def planOrder (dag : Dag) (chunk : List String) : Option (List String) :=
  topoAux dag.edges chunk.length chunk

/-- Dictionary lookup `recipe_targets[recipe]` (build.py line 258),
where `filtered` is the association list returned by
`utils.filter_recipes` (lines 190-193). -/
def targetsOf (filtered : List (String × List TargetWorld)) (recipe : String) :
    List TargetWorld :=
  (((filtered.find? fun p => p.1 == recipe).map Prod.snd).getD [])

/-- The recipes for which `build` is invoked, in order: one entry per
(recipe, target) pair visited by the nested loop at build.py lines
257-268. -/
def buildTrace (filtered : List (String × List TargetWorld)) (recipes : List String) :
    List String :=
  (recipes.map fun r => (targetsOf filtered r).map fun _ => r).flatten

/-- The accumulated `success` flag of the build loop (build.py lines
256-268): `success = True`, then `success &= build(...)` per target. -/
def buildLoopSuccess (filtered : List (String × List TargetWorld))
    (recipes : List String) (testonly mulledTest useDocker : Bool) : Bool :=
  recipes.foldl
    (fun acc r =>
      (targetsOf filtered r).foldl
        (fun a w => a && (build testonly mulledTest useDocker w).result) acc)
    true

/-- Result of one `test_recipes` run: the trace of `build` invocations
performed, and the Python outcome (`.ok none` for the bare `return` at
line 187, `.ok (some b)` for `return b`, `.error e` for an escaped
exception). -/
structure RunResult where
  buildCalls : List String
  outcome : Except PyError (Option Bool)
  deriving Repr

/-- Embedding of `test_recipes` (build.py lines 133-315).

Inputs model the collaborator results the function consumes:
`recipes0` is the list of recipes produced by `utils.get_recipes` for
the requested package glob (identified by their paths relative to the
recipe folder), `blacklist` the blacklist from the config,
`filtered` the association list produced by `utils.filter_recipes`,
`dag` and `name2recipes` the pair returned by `utils.get_dag`,
`subdagsN` and `subdagI` the `SUBDAGS`/`SUBDAG` environment values, and
`useDocker` whether a docker builder was constructed (lines 238-254).

Control flow: the blacklist-filtered recipe list being empty returns
`None` (line 187); an empty dag returns `True` (line 200); a subdag
index at or beyond the number of chunks returns `True` (line 224); a
cyclic selected subgraph propagates `NetworkXUnfeasible` from
`nx.topological_sort` (line 230); otherwise the build loop runs over
every planned target (lines 256-268) and then line 270 evaluates
`len(failed)` although `failed` was never assigned, raising
`NameError`, so the report and upload sections (lines 270-315) never
complete and the function never returns from this path. -/
def test_recipes (recipes0 blacklist : List String)
    (filtered : List (String × List TargetWorld))
    (dag : Dag) (name2recipes : String → List String)
    (subdagsN subdagI : Nat)
    (mulledTest testonly useDocker : Bool) : RunResult :=
  -- lines 175-187
  if ((recipes0.filter fun r => !(blacklist.contains r)).isEmpty) then ⟨[], .ok none⟩
  -- lines 196-203
  else if dag.nodes.isEmpty then ⟨[], .ok (some true)⟩
  -- lines 205-224
  else if (computeChunks (computeSubdags dag testonly) subdagsN).length ≤ subdagI then
    ⟨[], .ok (some true)⟩
  else
    -- lines 226-231
    match planOrder dag ((computeChunks (computeSubdags dag testonly) subdagsN).getD subdagI []) with
    | none => ⟨[], .error .networkxUnfeasible⟩
    | some order =>
      -- lines 229-231: expand packages to their recipes in topological order
      let recipes := (order.map name2recipes).flatten
      -- lines 256-268: the build loop (its accumulated flag is dead:
      -- line 270 raises before `success` is ever read again)
      let _success := buildLoopSuccess filtered recipes testonly mulledTest useDocker
      -- line 270: `if len(failed) == 0:` with `failed` unbound
      ⟨buildTrace filtered recipes, .error (.nameError "failed")⟩

/-! ### Properties of the sorting model -/

theorem perm_insertSorted {α : Type} (le : α → α → Bool) (x : α) (l : List α) :
    (insertSorted le x l).Perm (x :: l) := by
  induction l with
  | nil => exact List.Perm.refl _
  | cons y ys ih =>
    simp only [insertSorted]
    split
    · exact List.Perm.refl _
    · exact (ih.cons y).trans (List.Perm.swap x y ys)

theorem perm_isort {α : Type} (le : α → α → Bool) (l : List α) :
    (isort le l).Perm l := by
  induction l with
  | nil => exact List.Perm.refl _
  | cons x xs ih =>
    simp only [isort]
    exact (perm_insertSorted le x _).trans (ih.cons x)

theorem pairwise_insertSorted {α : Type} (le : α → α → Bool)
    (htot : ∀ a b, le a b = false → le b a = true)
    (htrans : ∀ a b c, le a b = true → le b c = true → le a c = true)
    (x : α) (l : List α) (hl : List.Pairwise (fun a b => le a b = true) l) :
    List.Pairwise (fun a b => le a b = true) (insertSorted le x l) := by
  induction l with
  | nil => simp [insertSorted]
  | cons y ys ih =>
    simp only [insertSorted]
    rcases hl with _ | ⟨hy, hys⟩
    split
    case isTrue hxy =>
      refine List.Pairwise.cons ?_ (List.Pairwise.cons hy hys)
      intro z hz
      rcases List.mem_cons.mp hz with rfl | hz
      · exact hxy
      · exact htrans x y z hxy (hy z hz)
    case isFalse hxy =>
      refine List.Pairwise.cons ?_ (ih hys)
      intro z hz
      have hz' := (perm_insertSorted le x ys).mem_iff.mp hz
      rcases List.mem_cons.mp hz' with h | hz'
      · rw [h]
        exact htot x y (Bool.eq_false_iff.mpr hxy)
      · exact hy z hz'

theorem pairwise_isort {α : Type} (le : α → α → Bool)
    (htot : ∀ a b, le a b = false → le b a = true)
    (htrans : ∀ a b c, le a b = true → le b c = true → le a c = true)
    (l : List α) :
    List.Pairwise (fun a b => le a b = true) (isort le l) := by
  induction l with
  | nil => simp [isort]
  | cons x xs ih =>
    simp only [isort]
    exact pairwise_insertSorted le htot htrans x (isort le xs) ih

theorem isort_eq_of_perm {α : Type} (le : α → α → Bool)
    (htot : ∀ a b, le a b = false → le b a = true)
    (htrans : ∀ a b c, le a b = true → le b c = true → le a c = true)
    (hanti : ∀ a b, le a b = true → le b a = true → a = b)
    (l1 l2 : List α) (h : l1.Perm l2) : isort le l1 = isort le l2 := by
  haveI : IsAntisymm α (fun a b => le a b = true) := ⟨hanti⟩
  exact List.eq_of_perm_of_sorted
    ((perm_isort le l1).trans (h.trans (perm_isort le l2).symm))
    (pairwise_isort le htot htrans l1)
    (pairwise_isort le htot htrans l2)

/-! ### Properties of the comparators -/

theorem chainLt_asymm : ∀ a b : List Char, chainLt a b = true → chainLt b a = false := by
  intro a
  induction a with
  | nil =>
    intro b h
    cases b with
    | nil => simp [chainLt] at h
    | cons c cs => simp [chainLt]
  | cons x xs ih =>
    intro b h
    cases b with
    | nil => simp [chainLt] at h
    | cons y ys =>
      simp only [chainLt] at h ⊢
      by_cases h1 : x.toNat < y.toNat
      · have h2 : ¬ y.toNat < x.toNat := by omega
        simp [h1, h2]
      · by_cases h2 : y.toNat < x.toNat
        · simp [h1, h2] at h
        · simp only [if_neg h1, if_neg h2] at h ⊢
          exact ih ys h

theorem chainLt_connex : ∀ a b : List Char, chainLt a b = false → chainLt b a = false → a = b := by
  intro a
  induction a with
  | nil =>
    intro b h1 h2
    cases b with
    | nil => rfl
    | cons c cs => simp [chainLt] at h1
  | cons x xs ih =>
    intro b h1 h2
    cases b with
    | nil => simp [chainLt] at h2
    | cons y ys =>
      simp only [chainLt] at h1 h2
      by_cases hlt : x.toNat < y.toNat
      · simp [hlt] at h1
      · by_cases hgt : y.toNat < x.toNat
        · simp [hgt, Nat.lt_asymm hgt] at h2
        · simp only [if_neg hlt, if_neg hgt] at h1 h2
          have hnat : x.toNat = y.toNat := by omega
          have hx : x = y := Char.ext (UInt32.ext hnat)
          rw [hx, ih ys h1 h2]

theorem chainLt_trans :
    ∀ a b c : List Char, chainLt a b = true → chainLt b c = true → chainLt a c = true := by
  intro a
  induction a with
  | nil =>
    intro b c h1 h2
    cases b with
    | nil => simp [chainLt] at h1
    | cons y ys =>
      cases c with
      | nil => simp [chainLt] at h2
      | cons z zs => simp [chainLt]
  | cons x xs ih =>
    intro b c h1 h2
    cases b with
    | nil => simp [chainLt] at h1
    | cons y ys =>
      cases c with
      | nil => simp [chainLt] at h2
      | cons z zs =>
        simp only [chainLt] at h1 h2 ⊢
        by_cases hxy : x.toNat < y.toNat
        · by_cases hyz : y.toNat < z.toNat
          · simp [show x.toNat < z.toNat by omega]
          · by_cases hzy : z.toNat < y.toNat
            · simp [hyz, hzy] at h2
            · have : y.toNat = z.toNat := by omega
              simp [show x.toNat < z.toNat by omega]
        · by_cases hyx : y.toNat < x.toNat
          · simp [hxy, hyx] at h1
          · have hxyeq : x.toNat = y.toNat := by omega
            simp only [if_neg hxy, if_neg hyx] at h1
            by_cases hyz : y.toNat < z.toNat
            · simp [show x.toNat < z.toNat by omega]
            · by_cases hzy : z.toNat < y.toNat
              · simp [hyz, hzy] at h2
              · simp only [if_neg hyz, if_neg hzy] at h2
                have h3 : ¬ x.toNat < z.toNat := by omega
                have h4 : ¬ z.toNat < x.toNat := by omega
                simp only [if_neg h3, if_neg h4]
                exact ih ys zs h1 h2

theorem strLt_asymm (a b : String) : strLt a b = true → strLt b a = false :=
  fun h => chainLt_asymm a.data b.data h

theorem strLt_connex (a b : String) : strLt a b = false → strLt b a = false → a = b :=
  fun h1 h2 => String.ext (chainLt_connex a.data b.data h1 h2)

theorem strLt_trans (a b c : String) :
    strLt a b = true → strLt b c = true → strLt a c = true :=
  fun h1 h2 => chainLt_trans a.data b.data c.data h1 h2

theorem listLe_total : ∀ a b : List String, listLe a b = false → listLe b a = true := by
  intro a
  induction a with
  | nil => intro b h; simp [listLe] at h
  | cons x xs ih =>
    intro b h
    cases b with
    | nil => simp [listLe]
    | cons y ys =>
      simp only [listLe] at h ⊢
      cases hxy : strLt x y with
      | true => simp [hxy] at h
      | false =>
        cases hyx : strLt y x with
        | true => simp [hyx]
        | false =>
          simp only [hxy, hyx] at h ⊢
          simp at h ⊢
          exact ih ys h

theorem listLe_trans : ∀ a b c : List String,
    listLe a b = true → listLe b c = true → listLe a c = true := by
  intro a
  induction a with
  | nil => intro b c h1 h2; simp [listLe]
  | cons x xs ih =>
    intro b c h1 h2
    cases b with
    | nil => simp [listLe] at h1
    | cons y ys =>
      cases c with
      | nil => simp [listLe] at h2
      | cons z zs =>
        simp only [listLe] at h1 h2 ⊢
        cases hxy : strLt x y with
        | true =>
          cases hyz : strLt y z with
          | true => simp [strLt_trans x y z hxy hyz]
          | false =>
            cases hzy : strLt z y with
            | true => simp [hyz, hzy] at h2
            | false =>
              have hyzeq : y = z := strLt_connex y z hyz hzy
              rw [← hyzeq]
              simp [hxy]
        | false =>
          cases hyx : strLt y x with
          | true => simp [hxy, hyx] at h1
          | false =>
            have hxyeq : x = y := strLt_connex x y hxy hyx
            simp only [hxy, hyx] at h1
            simp at h1
            cases hyz : strLt y z with
            | true =>
              rw [hxyeq]
              simp [hyz]
            | false =>
              cases hzy : strLt z y with
              | true => simp [hyz, hzy] at h2
              | false =>
                have hyzeq : y = z := strLt_connex y z hyz hzy
                simp only [hyz, hzy] at h2
                simp at h2
                have hxz : strLt x z = false := by rw [hxyeq, hyzeq] at hxy ⊢; exact hxy
                have hzx : strLt z x = false := by rw [hxyeq, hyzeq] at hyx ⊢; exact hyx
                simp only [hxz, hzx]
                simp
                exact ih ys zs h1 h2

theorem listLe_antisymm : ∀ a b : List String,
    listLe a b = true → listLe b a = true → a = b := by
  intro a
  induction a with
  | nil =>
    intro b h1 h2
    cases b with
    | nil => rfl
    | cons y ys => simp [listLe] at h2
  | cons x xs ih =>
    intro b h1 h2
    cases b with
    | nil => simp [listLe] at h1
    | cons y ys =>
      simp only [listLe] at h1 h2
      cases hxy : strLt x y with
      | true =>
        rw [strLt_asymm x y hxy] at h2
        simp [hxy] at h2
      | false =>
        cases hyx : strLt y x with
        | true => simp [hxy, hyx] at h1
        | false =>
          have hx : x = y := strLt_connex x y hxy hyx
          simp only [hxy, hyx] at h1 h2
          simp at h1 h2
          rw [hx, ih ys h1 h2]

/-! ### The subdag computation distributes exactly the graph nodes -/

theorem extractGroup_perm (x : String) :
    ∀ (gs : List (List String)) (g : List String) (rest : List (List String)),
    extractGroup x gs = some (g, rest) → gs.Perm (g :: rest) := by
  intro gs
  induction gs with
  | nil => intro g rest h; simp [extractGroup] at h
  | cons g0 gs ih =>
    intro g rest h
    simp only [extractGroup] at h
    split at h
    · simp only [Option.some.injEq, Prod.mk.injEq] at h
      rw [← h.1, ← h.2]
    · cases h2 : extractGroup x gs with
      | none => rw [h2] at h; simp at h
      | some p =>
        obtain ⟨g1, r1⟩ := p
        rw [h2] at h
        simp only [Option.some.injEq, Prod.mk.injEq] at h
        rw [← h.1, ← h.2]
        exact ((ih g1 r1 h2).cons g0).trans (List.Perm.swap g1 g0 r1)

theorem mergeGroups_flatten_perm (groups : List (List String)) (a b : String) :
    (mergeGroups groups a b).flatten.Perm groups.flatten := by
  cases h1 : extractGroup a groups with
  | none =>
    have e : mergeGroups groups a b = groups := by simp [mergeGroups, h1]
    rw [e]
  | some p =>
    obtain ⟨ga, rest⟩ := p
    by_cases hb : ga.contains b
    · have hb' : b ∈ ga := by simpa using hb
      have e : mergeGroups groups a b = groups := by simp [mergeGroups, h1, hb']
      rw [e]
    · have hb' : b ∉ ga := by simpa using hb
      cases h2 : extractGroup b rest with
      | none =>
        have e : mergeGroups groups a b = groups := by simp [mergeGroups, h1, hb', h2]
        rw [e]
      | some q =>
        obtain ⟨gb, rest2⟩ := q
        have e : mergeGroups groups a b = (ga ++ gb) :: rest2 := by
          simp [mergeGroups, h1, hb', h2]
        rw [e]
        have p1 : ((ga :: rest).flatten).Perm groups.flatten :=
          (extractGroup_perm a groups ga rest h1).flatten.symm
        have p2 : ((gb :: rest2).flatten).Perm rest.flatten :=
          (extractGroup_perm b rest gb rest2 h2).flatten.symm
        have e2 : ((ga ++ gb) :: rest2).flatten = ga ++ (gb :: rest2).flatten := by
          simp [List.append_assoc]
        rw [e2]
        exact (List.Perm.append_left ga p2).trans p1

theorem foldl_merge_flatten_perm (edges : List (String × String)) :
    ∀ gs : List (List String),
    ((edges.foldl (fun gs e => mergeGroups gs e.1 e.2) gs).flatten).Perm gs.flatten := by
  induction edges with
  | nil => intro gs; exact List.Perm.refl _
  | cons e es ih =>
    intro gs
    simp only [List.foldl_cons]
    exact (ih (mergeGroups gs e.1 e.2)).trans (mergeGroups_flatten_perm gs e.1 e.2)

theorem flatten_map_singleton {α : Type} (l : List α) :
    (l.map fun n => [n]).flatten = l := by
  induction l <;> simp [*]

theorem flatten_map_sort_perm (L : List (List String)) :
    ((L.map sortStrings).flatten).Perm L.flatten := by
  induction L with
  | nil => exact List.Perm.refl _
  | cons g L ih =>
    simp only [List.map_cons, List.flatten_cons]
    exact (perm_isort strLe g).append ih

theorem computeSubdags_flatten_perm (dag : Dag) (testonly : Bool) :
    (computeSubdags dag testonly).flatten.Perm dag.nodes := by
  simp only [computeSubdags, sortGroups]
  split
  · have h := (perm_isort listLe (dag.nodes.map fun n => [n])).flatten
    rw [flatten_map_singleton] at h
    exact h
  · have h1 := (perm_isort listLe ((connectedComponents dag.nodes dag.edges).map sortStrings)).flatten
    have h2 := flatten_map_sort_perm (connectedComponents dag.nodes dag.edges)
    have h3 : ((connectedComponents dag.nodes dag.edges).flatten).Perm dag.nodes := by
      simp only [connectedComponents]
      have h4 := foldl_merge_flatten_perm dag.edges (dag.nodes.map fun n => [n])
      rw [flatten_map_singleton] at h4
      exact h4
    exact h1.trans (h2.trans h3)

theorem flatten_map_sliceStep_perm {α : Type} (m : Nat) :
    ∀ l : List α,
    ((List.range (m + 1)).map (fun i => sliceStep l i (m + 1))).flatten.Perm l := by
  intro l
  induction l with
  | nil =>
    have h : ∀ ns : List Nat,
        ((ns.map fun i => sliceStep ([] : List α) i (m + 1)).flatten) = [] := by
      intro ns; induction ns <;> simp [sliceStep, *]
    rw [h]
  | cons x xs ih =>
    rw [List.range_succ_eq_map]
    simp only [List.map_cons, List.map_map, List.flatten_cons]
    have hf0 : sliceStep (x :: xs) 0 (m + 1) = x :: sliceStep xs m (m + 1) := by
      simp [sliceStep]
    have hfs : ((List.range m).map ((fun i => sliceStep (x :: xs) i (m + 1)) ∘ Nat.succ))
        = (List.range m).map (fun i => sliceStep xs i (m + 1)) := by
      refine List.map_congr_left ?_
      intro i _
      simp [Function.comp, sliceStep]
    rw [hf0, hfs]
    simp only [List.cons_append]
    refine List.Perm.cons x ?_
    have hih : (((List.range m).map fun i => sliceStep xs i (m + 1)).flatten
        ++ sliceStep xs m (m + 1)).Perm xs := by
      have e : ((List.range (m + 1)).map fun i => sliceStep xs i (m + 1)).flatten
          = ((List.range m).map fun i => sliceStep xs i (m + 1)).flatten
            ++ sliceStep xs m (m + 1) := by
        rw [List.range_succ]
        simp [List.flatten_append]
      rw [e] at ih
      exact ih
    exact List.perm_append_comm.trans hih

theorem flatten_map_flatten {α : Type} :
    ∀ M : List (List (List α)), (M.map List.flatten).flatten = M.flatten.flatten := by
  intro M
  induction M with
  | nil => rfl
  | cons g M ih => simp [List.flatten_append, ih]

theorem computeChunks_flatten_perm (L : List (List String)) (n : Nat) (hn : 1 ≤ n) :
    (computeChunks L n).flatten.Perm L.flatten := by
  simp only [computeChunks]
  split
  · obtain ⟨m, rfl⟩ : ∃ m, n = m + 1 := ⟨n - 1, by omega⟩
    have key := (flatten_map_sliceStep_perm (α := List String) m L).flatten
    have e : ((List.range (m + 1)).map fun i => (sliceStep L i (m + 1)).flatten).flatten
        = (((List.range (m + 1)).map fun i => sliceStep L i (m + 1)).map List.flatten).flatten := by
      rw [List.map_map]
      rfl
    rw [e, flatten_map_flatten]
    exact key
  · exact List.Perm.refl _

/-! ### Topological sort lemmas -/

theorem topoAux_perm (edges : List (String × String)) :
    ∀ (fuel : Nat) (remaining order : List String),
    topoAux edges fuel remaining = some order → order.Perm remaining := by
  intro fuel
  induction fuel with
  | zero =>
    intro remaining order h
    simp only [topoAux] at h
    split at h
    · next hemp =>
      cases h
      rw [List.isEmpty_iff.mp hemp]
    · cases h
  | succ fuel ih =>
    intro remaining order h
    simp only [topoAux] at h
    split at h
    · next hemp =>
      cases h
      rw [List.isEmpty_iff.mp hemp]
    · next hemp =>
      cases hfind : remaining.find? (topoReady edges remaining) with
      | none => rw [hfind] at h; cases h
      | some x =>
        rw [hfind] at h
        obtain ⟨order', hrec, horder⟩ := Option.map_eq_some'.mp h
        have hxmem : x ∈ remaining := List.mem_of_find?_eq_some hfind
        rw [← horder]
        exact ((ih _ order' hrec).cons x).trans (List.perm_cons_erase hxmem).symm

theorem topoAux_precedes (edges : List (String × String)) :
    ∀ (fuel : Nat) (remaining order : List String) (a b : String),
    remaining.Nodup → topoAux edges fuel remaining = some order →
    (a, b) ∈ edges → a ∈ remaining → b ∈ remaining →
    order.indexOf a < order.indexOf b := by
  intro fuel
  induction fuel with
  | zero =>
    intro remaining order a b hnd h hab ha hb
    simp only [topoAux] at h
    split at h
    · next hemp => rw [List.isEmpty_iff.mp hemp] at hb; cases hb
    · cases h
  | succ fuel ih =>
    intro remaining order a b hnd h hab ha hb
    simp only [topoAux] at h
    split at h
    · next hemp => rw [List.isEmpty_iff.mp hemp] at hb; cases hb
    · next hemp =>
      cases hfind : remaining.find? (topoReady edges remaining) with
      | none => rw [hfind] at h; cases h
      | some x =>
        rw [hfind] at h
        obtain ⟨order', hrec, horder⟩ := Option.map_eq_some'.mp h
        have hready : topoReady edges remaining x = true := List.find?_some hfind
        by_cases hxb : x = b
        · exfalso
          subst hxb
          simp only [topoReady] at hready
          have hany : (edges.any fun e => e.2 == x && remaining.contains e.1) = true :=
            List.any_eq_true.mpr ⟨(a, x), hab, by simp [ha]⟩
          rw [hany] at hready
          simp at hready
        · by_cases hxa : x = a
          · subst hxa
            rw [← horder, List.indexOf_cons_self, List.indexOf_cons_ne _ hxb]
            exact Nat.succ_pos _
          · have ha' : a ∈ remaining.erase x :=
              (List.mem_erase_of_ne fun h => hxa h.symm).mpr ha
            have hb' : b ∈ remaining.erase x :=
              (List.mem_erase_of_ne fun h => hxb h.symm).mpr hb
            have hih := ih (remaining.erase x) order' a b (hnd.erase x) hrec hab ha' hb'
            rw [← horder, List.indexOf_cons_ne _ hxa, List.indexOf_cons_ne _ hxb]
            exact Nat.succ_lt_succ hih

theorem planOrder_perm (dag : Dag) (chunk order : List String)
    (h : planOrder dag chunk = some order) : order.Perm chunk :=
  topoAux_perm dag.edges chunk.length chunk order h

theorem planOrder_precedes (dag : Dag) (chunk order : List String)
    (hnd : chunk.Nodup) (h : planOrder dag chunk = some order)
    (a b : String) (hab : (a, b) ∈ dag.edges) (ha : a ∈ chunk) (hb : b ∈ chunk) :
    order.indexOf a < order.indexOf b :=
  topoAux_precedes dag.edges chunk.length chunk order a b hnd h hab ha hb

/-! ### Control flow of test_recipes -/

theorem test_recipes_build_reached (recipes0 blacklist : List String)
    (filtered : List (String × List TargetWorld)) (dag : Dag)
    (name2recipes : String → List String) (subdagsN subdagI : Nat)
    (mulledTest testonly useDocker : Bool) (order : List String)
    (h1 : (recipes0.filter fun r => !(blacklist.contains r)).isEmpty = false)
    (h2 : dag.nodes.isEmpty = false)
    (h3 : subdagI < (computeChunks (computeSubdags dag testonly) subdagsN).length)
    (h4 : planOrder dag
      ((computeChunks (computeSubdags dag testonly) subdagsN).getD subdagI []) = some order) :
    test_recipes recipes0 blacklist filtered dag name2recipes subdagsN subdagI
        mulledTest testonly useDocker
      = ⟨buildTrace filtered ((order.map name2recipes).flatten),
         .error (.nameError "failed")⟩ := by
  simp only [test_recipes]
  rw [if_neg (by simp only [h1]; exact Bool.false_ne_true),
    if_neg (by simp only [h2]; exact Bool.false_ne_true),
    if_neg (Nat.not_le.mpr h3), h4]

/-! ### The claims -/

/-- Claim C1 (refuted, evaluation at the failing input): in the chain
a→b→c where the build of `a` fails (conda build raises), the code still
invokes `build` for `b` and for `c` — the trace of build calls is
`[a, b, c]` — and the run then raises `NameError` at line 270 because
the variable `failed` is never assigned.  No target is ever placed in a
`skipped` state (the code has no skip propagation at all:
`skip_dependent` at line 279 is also never populated), contradicting
the claim that the transitive dependents of a failed target are never
built and end as skipped. -/
theorem claim_C1_failed_dependents_still_built :
    test_recipes ["a", "b", "c"] []
      [("a", [⟨false, true, false, 0⟩]),
       ("b", [⟨false, false, true, 0⟩]),
       ("c", [⟨false, false, true, 0⟩])]
      ⟨["a", "b", "c"], [("a", "b"), ("b", "c")]⟩ (fun p => [p]) 1 0 false false false
      = ⟨["a", "b", "c"], .error (.nameError "failed")⟩ := rfl

/-- Claim C2 (refuted): every run that reaches the end of the target
list of the selected shard raises `NameError` at line 270 (the variable
`failed` was never assigned), so `test_recipes` never returns the
claimed boolean verdict from that path — neither on all-success nor on
some-failure runs. -/
theorem claim_C2_completed_run_raises (recipes0 blacklist : List String)
    (filtered : List (String × List TargetWorld)) (dag : Dag)
    (name2recipes : String → List String) (subdagsN subdagI : Nat)
    (mulledTest testonly useDocker : Bool) (order : List String)
    (h1 : (recipes0.filter fun r => !(blacklist.contains r)).isEmpty = false)
    (h2 : dag.nodes.isEmpty = false)
    (h3 : subdagI < (computeChunks (computeSubdags dag testonly) subdagsN).length)
    (h4 : planOrder dag
      ((computeChunks (computeSubdags dag testonly) subdagsN).getD subdagI []) = some order) :
    (test_recipes recipes0 blacklist filtered dag name2recipes subdagsN subdagI
        mulledTest testonly useDocker).outcome
      = .error (.nameError "failed") := by
  rw [test_recipes_build_reached recipes0 blacklist filtered dag name2recipes
    subdagsN subdagI mulledTest testonly useDocker order h1 h2 h3 h4]

/-- Witness for claim C2: a concrete single-recipe run whose build
succeeds still ends in `NameError` rather than returning a verdict. -/
theorem claim_C2_witness :
    (test_recipes ["a"] [] [("a", [⟨false, false, true, 0⟩])] ⟨["a"], []⟩
        (fun p => [p]) 1 0 false false false).outcome
      = .error (.nameError "failed") :=
  claim_C2_completed_run_raises ["a"] [] [("a", [⟨false, false, true, 0⟩])] ⟨["a"], []⟩
    (fun p => [p]) 1 0 false false false ["a"] (by decide) (by decide) (by decide) (by rfl)

/-- Claim C3 (refuted, evaluation at the failing input): with the chain
a→b→c and only the build of `b` failing locally, the loop does continue
over the remaining targets (the trace is `[a, b, c]`), but the run then
aborts with `NameError` at line 270 — an abort that is neither a
cyclic-dependency configuration error nor an out-of-range shard index,
and that happens on every run that completes the loop. -/
theorem claim_C3_abort_without_config_error :
    test_recipes ["a", "b", "c"] []
      [("a", [⟨false, false, true, 0⟩]),
       ("b", [⟨false, true, false, 0⟩]),
       ("c", [⟨false, false, true, 0⟩])]
      ⟨["a", "b", "c"], [("a", "b"), ("b", "c")]⟩ (fun p => [p]) 1 0 false false false
      = ⟨["a", "b", "c"], .error (.nameError "failed")⟩ := rfl

/-- Claim C4 (confirmed): for every dependency graph with distinct node
names and every shard count of at least 1, the chunks produced by the
subdag computation are a partition of the node set: their flattening is
a permutation of the nodes, membership in some chunk is equivalent to
membership in the node set, and the chunks are pairwise disjoint. -/
theorem claim_C4_shards_partition (dag : Dag) (testonly : Bool) (n : Nat)
    (hn : 1 ≤ n) (hnodup : dag.nodes.Nodup) :
    ((computeChunks (computeSubdags dag testonly) n).flatten.Perm dag.nodes)
    ∧ (∀ x, x ∈ (computeChunks (computeSubdags dag testonly) n).flatten ↔ x ∈ dag.nodes)
    ∧ List.Pairwise List.Disjoint (computeChunks (computeSubdags dag testonly) n) := by
  have hperm := (computeChunks_flatten_perm (computeSubdags dag testonly) n hn).trans
    (computeSubdags_flatten_perm dag testonly)
  refine ⟨hperm, fun x => hperm.mem_iff, ?_⟩
  have hflat : ((computeChunks (computeSubdags dag testonly) n).flatten).Nodup :=
    hperm.symm.nodup hnodup
  exact (List.nodup_flatten.mp hflat).2

/-- Witness for claim C4 at a concrete graph with two components and
two shards. -/
theorem claim_C4_witness :
    ((computeChunks (computeSubdags ⟨["a", "b", "c"], [("a", "b")]⟩ false) 2).flatten.Perm
      ["a", "b", "c"])
    ∧ (∀ x, x ∈ (computeChunks (computeSubdags ⟨["a", "b", "c"], [("a", "b")]⟩ false) 2).flatten
        ↔ x ∈ ["a", "b", "c"])
    ∧ List.Pairwise List.Disjoint
        (computeChunks (computeSubdags ⟨["a", "b", "c"], [("a", "b")]⟩ false) 2) :=
  claim_C4_shards_partition ⟨["a", "b", "c"], [("a", "b")]⟩ false 2 (by decide) (by decide)

/-- Claim C5 (confirmed): whenever the planner returns an order for the
selected shard, that order is a permutation of the shard and, for every
edge (a, b) of the graph with both endpoints in the shard, a precedes b
in the order. -/
theorem claim_C5_shard_order_topological (dag : Dag) (testonly : Bool) (n i : Nat)
    (order : List String) (hn : 1 ≤ n) (hnodup : dag.nodes.Nodup)
    (h : planOrder dag
      ((computeChunks (computeSubdags dag testonly) n).getD i []) = some order) :
    order.Perm ((computeChunks (computeSubdags dag testonly) n).getD i [])
    ∧ ∀ a b, (a, b) ∈ dag.edges →
        a ∈ (computeChunks (computeSubdags dag testonly) n).getD i [] →
        b ∈ (computeChunks (computeSubdags dag testonly) n).getD i [] →
        order.indexOf a < order.indexOf b := by
  have hperm := (computeChunks_flatten_perm (computeSubdags dag testonly) n hn).trans
    (computeSubdags_flatten_perm dag testonly)
  have hflat : ((computeChunks (computeSubdags dag testonly) n).flatten).Nodup :=
    hperm.symm.nodup hnodup
  have hchunk : ((computeChunks (computeSubdags dag testonly) n).getD i []).Nodup := by
    by_cases hi : i < (computeChunks (computeSubdags dag testonly) n).length
    · rw [List.getD_eq_getElem _ _ hi]
      exact (List.nodup_flatten.mp hflat).1 _ (List.getElem_mem hi)
    · rw [List.getD_eq_default _ _ (Nat.le_of_not_lt hi)]
      exact List.nodup_nil
  exact ⟨planOrder_perm dag _ order h,
    fun a b hab ha hb => planOrder_precedes dag _ order hchunk h a b hab ha hb⟩

/-- Witness for claim C5 at a concrete two-node shard with one edge. -/
theorem claim_C5_witness :
    (["a", "b"].Perm ((computeChunks (computeSubdags ⟨["b", "a"], [("a", "b")]⟩ false) 1).getD 0 []))
    ∧ ∀ a b, (a, b) ∈ [("a", "b")] →
        a ∈ (computeChunks (computeSubdags ⟨["b", "a"], [("a", "b")]⟩ false) 1).getD 0 [] →
        b ∈ (computeChunks (computeSubdags ⟨["b", "a"], [("a", "b")]⟩ false) 1).getD 0 [] →
        (["a", "b"].indexOf a < ["a", "b"].indexOf b) :=
  claim_C5_shard_order_topological ⟨["b", "a"], [("a", "b")]⟩ false 1 0 ["a", "b"]
    (by decide) (by decide) (by rfl)

/-- Claim C6 (confirmed): the shard computation is deterministic — two
runs on equal graphs, equal shard counts and equal shard indices yield
the same selected shard and the same planned order; moreover the
sorting stage normalises any presentation of the component family, so
two component presentations that agree as a multiset of sorted groups
produce the identical subdag list. -/
theorem claim_C6_shards_deterministic :
    (∀ (dag1 dag2 : Dag) (t1 t2 : Bool) (n1 n2 i1 i2 : Nat),
      dag1 = dag2 → t1 = t2 → n1 = n2 → i1 = i2 →
      (computeChunks (computeSubdags dag1 t1) n1).getD i1 []
        = (computeChunks (computeSubdags dag2 t2) n2).getD i2 []
      ∧ planOrder dag1 ((computeChunks (computeSubdags dag1 t1) n1).getD i1 [])
        = planOrder dag2 ((computeChunks (computeSubdags dag2 t2) n2).getD i2 []))
    ∧ (∀ F1 F2 : List (List String), (F1.map sortStrings).Perm (F2.map sortStrings) →
        sortGroups (F1.map sortStrings) = sortGroups (F2.map sortStrings)) := by
  constructor
  · rintro dag1 dag2 t1 t2 n1 n2 i1 i2 rfl rfl rfl rfl
    exact ⟨rfl, rfl⟩
  · intro F1 F2 h
    exact isort_eq_of_perm listLe listLe_total listLe_trans listLe_antisymm _ _ h

/-- Witness for claim C6: a concrete double run, and two permuted
presentations of the same component family normalised to the same
sorted subdag list. -/
theorem claim_C6_witness :
    ((computeChunks (computeSubdags ⟨["a", "b"], [("a", "b")]⟩ false) 1).getD 0 []
        = (computeChunks (computeSubdags ⟨["a", "b"], [("a", "b")]⟩ false) 1).getD 0 []
      ∧ planOrder ⟨["a", "b"], [("a", "b")]⟩
          ((computeChunks (computeSubdags ⟨["a", "b"], [("a", "b")]⟩ false) 1).getD 0 [])
        = planOrder ⟨["a", "b"], [("a", "b")]⟩
          ((computeChunks (computeSubdags ⟨["a", "b"], [("a", "b")]⟩ false) 1).getD 0 []))
    ∧ sortGroups ([["b"], ["a"]].map sortStrings)
        = sortGroups ([["a"], ["b"]].map sortStrings) :=
  ⟨claim_C6_shards_deterministic.1 ⟨["a", "b"], [("a", "b")]⟩ ⟨["a", "b"], [("a", "b")]⟩
      false false 1 1 0 0 rfl rfl rfl rfl,
    claim_C6_shards_deterministic.2 [["b"], ["a"]] [["a"], ["b"]] (by decide)⟩

/-- Claim C7 (refuted, evaluation at the failing input): an upload that
fails with output indicating the package already exists does raise out
of the run — the exception handler at line 303 evaluates `sys.stderr`
although the module never imports `sys`, so `NameError` is raised
before the already-exists test at line 304 can treat the failure as
success.  (Independently, the whole upload section is unreachable
because line 270 raises `NameError` first.) -/
theorem claim_C7_already_exists_upload_raises :
    uploadPhase false true [⟨true, true, true⟩] true = .error (.nameError "sys") := rfl

/-- Claim C8 (confirmed): when the requested shard index is at or
beyond the number of chunks, the run returns `True` (the normal
"nothing to be done" outcome) without performing any build and without
an error. -/
theorem claim_C8_shard_index_out_of_range (recipes0 blacklist : List String)
    (filtered : List (String × List TargetWorld)) (dag : Dag)
    (name2recipes : String → List String) (subdagsN subdagI : Nat)
    (mulledTest testonly useDocker : Bool)
    (h1 : (recipes0.filter fun r => !(blacklist.contains r)).isEmpty = false)
    (h2 : dag.nodes.isEmpty = false)
    (h3 : (computeChunks (computeSubdags dag testonly) subdagsN).length ≤ subdagI) :
    test_recipes recipes0 blacklist filtered dag name2recipes subdagsN subdagI
        mulledTest testonly useDocker
      = ⟨[], .ok (some true)⟩ := by
  simp only [test_recipes]
  rw [if_neg (by simp only [h1]; exact Bool.false_ne_true),
    if_neg (by simp only [h2]; exact Bool.false_ne_true),
    if_pos h3]

/-- Witness for claim C8: the spec scenario — one connected chain
a→b→c gives a single chunk, and requesting shard index 2 returns the
"nothing to be done" success. -/
theorem claim_C8_witness :
    test_recipes ["a", "b", "c"] []
      [("a", [⟨false, false, true, 0⟩]),
       ("b", [⟨false, false, true, 0⟩]),
       ("c", [⟨false, false, true, 0⟩])]
      ⟨["a", "b", "c"], [("a", "b"), ("b", "c")]⟩ (fun p => [p]) 2 2 false false false
      = ⟨[], .ok (some true)⟩ :=
  claim_C8_shard_index_out_of_range ["a", "b", "c"] []
    [("a", [⟨false, false, true, 0⟩]),
     ("b", [⟨false, false, true, 0⟩]),
     ("c", [⟨false, false, true, 0⟩])]
    ⟨["a", "b", "c"], [("a", "b"), ("b", "c")]⟩ (fun p => [p]) 2 2 false false false
    (by decide) (by decide) (by decide)

/-- Claim C9 (confirmed): with a docker builder that completes without
raising, `build` returns `False` when the expected built package path
does not exist on disk, and the mulled test collaborator is not invoked
for that target. -/
theorem claim_C9_docker_missing_package (testonly mulledTest : Bool) (w : TargetWorld)
    (h1 : w.dockerBuildRaises = false) (h2 : w.builtPkgExists = false) :
    build testonly mulledTest true w = ⟨false, false⟩ := by
  simp [build, h1, h2]

/-- Witness for claim C9 at a concrete target whose docker build
completes but leaves no package on disk. -/
theorem claim_C9_witness :
    build false true true ⟨false, false, false, 0⟩ = ⟨false, false⟩ :=
  claim_C9_docker_missing_package false true ⟨false, false, false, 0⟩ rfl rfl

/-- Claim C10 (confirmed): when no recipe survives the blacklist
filter, `test_recipes` returns `None` (the bare `return` at line 187),
whereas a nonempty recipe list with an empty dependency graph returns
`True` (line 200); the two "nothing to be done" exits yield different
values. -/
theorem claim_C10_two_nothing_exits :
    (∀ (recipes0 blacklist : List String) (filtered : List (String × List TargetWorld))
        (dag : Dag) (name2recipes : String → List String) (subdagsN subdagI : Nat)
        (mulledTest testonly useDocker : Bool),
      (recipes0.filter fun r => !(blacklist.contains r)).isEmpty = true →
      test_recipes recipes0 blacklist filtered dag name2recipes subdagsN subdagI
          mulledTest testonly useDocker
        = ⟨[], .ok none⟩)
    ∧ (∀ (recipes0 blacklist : List String) (filtered : List (String × List TargetWorld))
        (dag : Dag) (name2recipes : String → List String) (subdagsN subdagI : Nat)
        (mulledTest testonly useDocker : Bool),
      (recipes0.filter fun r => !(blacklist.contains r)).isEmpty = false →
      dag.nodes.isEmpty = true →
      test_recipes recipes0 blacklist filtered dag name2recipes subdagsN subdagI
          mulledTest testonly useDocker
        = ⟨[], .ok (some true)⟩)
    ∧ (Except.ok (some true) ≠ (Except.ok none : Except PyError (Option Bool))) := by
  refine ⟨?_, ?_, by simp⟩
  · intro recipes0 blacklist filtered dag name2recipes subdagsN subdagI mt t u h1
    simp only [test_recipes]
    rw [if_pos h1]
  · intro recipes0 blacklist filtered dag name2recipes subdagsN subdagI mt t u h1 h2
    simp only [test_recipes]
    rw [if_neg (by simp only [h1]; exact Bool.false_ne_true), if_pos h2]

/-- Witness for claim C10: a fully blacklisted glob returns `None`,
an empty dag returns `True`. -/
theorem claim_C10_witness :
    (test_recipes ["x"] ["x"] [] ⟨[], []⟩ (fun _ => []) 1 0 false false false
      = ⟨[], .ok none⟩)
    ∧ (test_recipes ["a"] [] [("a", [])] ⟨[], []⟩ (fun _ => []) 1 0 false false false
      = ⟨[], .ok (some true)⟩) :=
  ⟨claim_C10_two_nothing_exits.1 ["x"] ["x"] [] ⟨[], []⟩ (fun _ => []) 1 0 false false false
      (by decide),
    claim_C10_two_nothing_exits.2.1 ["a"] [] [("a", [])] ⟨[], []⟩ (fun _ => []) 1 0
      false false false (by decide) (by decide)⟩

end BiocondaBuild
